import Mathlib

/-!
RMD: a verification development.

A shallow embedding of the pure logic of

* `modules/cache/config/config.go` (`MBAModeToInt`),
* `utils/proc/proc.go` (feature probe, mount scans, CPU-affinity word packing),
* the CLOS registry of `utils/pqos` (exercised by `utils/pqos/pqos_test.go`),

followed by theorems about these definitions.

Conventions.  A Go `string` is a Lean `String`; a Go `error` is an `Option`
of an error value (`none` is `nil`).  A file read through `bufio.Scanner` is
represented by the sequence of texts that `s.Text()` yields, together with the
value of `s.Err()` once scanning stops.  Machine integers are `Nat`/`Int` with
explicit reduction modulo `2^64`.  The two affinity system calls are parameters
of the functions that issue them.
-/

namespace Rmd

/-! ## Go library functions used by the sources -/

/-- Go `strings.Split(s, sep)` for a one-byte separator (every call in the
sources passes `" "`): the pieces between consecutive separators, empty pieces
included; a string without separator gives a single piece. -/
def stringsSplit (s : String) (sep : Char) : List String :=
  (s.data.splitOn sep).map String.mk

/-- Substring test on character sequences: some suffix of the first list
starts with the second list. -/
def hasSubstr : List Char → List Char → Bool
  | [], sub => sub.isEmpty
  | c :: cs, sub => decide (sub <+: c :: cs) || hasSubstr cs sub

/-- Go `strings.Contains(s, substr)`. -/
def stringsContains (s substr : String) : Bool :=
  hasSubstr s.data substr.data

/-- Errors produced by the embedded functions. -/
inductive GoError where
  /-- The error `strconv.ErrSyntax`. -/
  | invalidSyntax
  /-- The error `strconv.ErrRange`. -/
  | outOfRange
  /-- A non-zero `syscall.Errno`. -/
  | errno (code : Nat)
  /-- An error of `os.Open` or of the scanner. -/
  | io (msg : String)
  /-- An error made by `fmt.Errorf` or `errors.New`, with its message. -/
  | msg (text : String)
  deriving DecidableEq

deriving instance DecidableEq for Except

/-- Value of a decimal digit, `none` for any other character. -/
def digitVal (c : Char) : Option Nat :=
  if '0'.toNat ≤ c.toNat ∧ c.toNat ≤ '9'.toNat then some (c.toNat - '0'.toNat) else none

/-- Accumulate decimal digits, most significant first. -/
def parseDigits : List Char → Nat → Option Nat
  | [], acc => some acc
  | c :: cs, acc =>
    match digitVal c with
    | none => none
    | some d => parseDigits cs (acc * 10 + d)

/-- Go `strconv.Atoi` on a 64-bit platform: an optional sign followed by one or
more decimal digits, with value in `[-2^63, 2^63)`. -/
def Atoi (s : String) : Except GoError Int :=
  let signed : Bool × List Char :=
    match s.data with
    | '-' :: r => (true, r)
    | '+' :: r => (false, r)
    | r => (false, r)
  if signed.2.isEmpty then .error GoError.invalidSyntax
  else
    match parseDigits signed.2 0 with
    | none => .error GoError.invalidSyntax
    | some n =>
      if signed.1 then
        (if n ≤ 2 ^ 63 then .ok (-(n : Int)) else .error GoError.outOfRange)
      else
        (if n < 2 ^ 63 then .ok (n : Int) else .error GoError.outOfRange)

/-- Conversion `uintptr(x)` of a Go `int`: reduction modulo `2^64`. -/
def uintptrOfInt (x : Int) : Nat := (x % 2 ^ 64).toNat

/-- Conversion `int(x)` of a Go `uint`: the two's-complement reading of the
64-bit pattern. -/
def intOfUint (x : Nat) : Int :=
  if x % 2 ^ 64 < 2 ^ 63 then ((x % 2 ^ 64 : Nat) : Int) else ((x % 2 ^ 64 : Nat) : Int) - 2 ^ 64

/-! ## modules/cache/config/config.go -/

namespace config

/-- Function `MBAModeToInt`: converts a supported MBA mode into the PQOS value. -/
def MBAModeToInt (mode : String) : Int × Option GoError :=
  if mode = "none" then (-1, none)
  else if mode = "percentage" then (0, none)
  else if mode = "mbps" then (1, none)
  else (-2, some (GoError.msg ("Unsupported MBA mode: [" ++ mode ++ "]")))

end config

/-! ## utils/proc/proc.go -/

namespace proc

/-- A file as the scanning functions see it: `os.Open` fails, or the scanner
yields `lines` in order and then stops with `s.Err() = scanErr`. -/
inductive ScannedFile where
  | unreadable (err : GoError)
  | content (lines : List String) (scanErr : Option GoError)

/-- The loops of `parseCPUInfoFile`: is `flag` one of the pieces of one of the
lines? -/
def parseCPUInfoFile.scan (flag : String) : List String → Bool
  | [] => false
  | text :: rest =>
    let flags := stringsSplit text ' '
    if flags.any (fun f => decide (f = flag)) then true else parseCPUInfoFile.scan flag rest

/-- Function `parseCPUInfoFile`, with the content of `CPUInfoPath` as a parameter. -/
def parseCPUInfoFile (cpuinfo : ScannedFile) (flag : String) : Bool × Option GoError :=
  match cpuinfo with
  | .unreadable err => (false, some err)
  | .content lines scanErr =>
    if parseCPUInfoFile.scan flag lines then (true, none)
    else
      match scanErr with
      | some err => (false, some err)
      | none => (false, none)

/-- The loop of `IsResctrlMounted`. -/
def IsResctrlMounted.scan (flag : String) : List String → Bool
  | [] => false
  | text :: rest =>
    let flags := stringsSplit text ' '
    if 3 < flags.length ∧ flags.get? 2 = some "resctrl" then
      (if flags.get? 1 = some flag then true else false)
    else IsResctrlMounted.scan flag rest

/-- Function `IsResctrlMounted`, with the content of `Mounts` as a parameter. -/
def IsResctrlMounted (mounts : ScannedFile) (flag : String) : Bool :=
  match mounts with
  | .unreadable _ => false
  | .content lines _ => IsResctrlMounted.scan flag lines

/-- The loop of `findMountDir`: the first line that contains `mountdir`. -/
def findMountDir.scan (mountdir : String) : List String → Option String
  | [] => none
  | text :: rest =>
    if stringsContains text mountdir then some text else findMountDir.scan mountdir rest

/-- Function `findMountDir`, with the content of `MountInfoPath` as a parameter. -/
def findMountDir (mountinfo : ScannedFile) (mountdir : String) : Except GoError String :=
  match mountinfo with
  | .unreadable err => .error err
  | .content lines _ =>
    match findMountDir.scan mountdir lines with
    | some text => .ok text
    | none => .error (GoError.msg ("Can not found the mount entry: " ++ mountdir))

/-- Function `IsEnableRdt`, with the mount info and `ResctrlPath` as parameters. -/
def IsEnableRdt (mountinfo : ScannedFile) (ResctrlPath : String) : Bool :=
  match findMountDir mountinfo ResctrlPath with
  | .error _ => false
  | .ok mount => decide (0 < mount.utf8ByteSize)

/-- Function `IsEnableCdp`, with the mount info and `ResctrlPath` as parameters. -/
def IsEnableCdp (mountinfo : ScannedFile) (ResctrlPath : String) : Bool :=
  match findMountDir mountinfo ResctrlPath with
  | .error _ => false
  | .ok mount => stringsContains mount "cdp"

/-- Function `IsEnableCat`, with the mount info and `ResctrlPath` as parameters. -/
def IsEnableCat (mountinfo : ScannedFile) (ResctrlPath : String) : Bool :=
  match findMountDir mountinfo ResctrlPath with
  | .error _ => false
  | .ok mount => !stringsContains mount "cdp" && decide (0 < mount.utf8ByteSize)

/-- The type `util.Bitmap` as `proc.go` uses it: the fields `Len` and `Bits`
(the package `utils/bitmap` itself is outside the sources read here). -/
structure Bitmap where
  Len : Int
  Bits : List Int
  deriving DecidableEq

/-- The two raw system calls of `proc.go`, given the pid converted to
`uintptr`.  `sched_getaffinity pid` is the content of the 16-word array
`mask` after the call together with the error number; `sched_setaffinity pid
mask` is the error number. -/
structure Kernel where
  sched_getaffinity : Nat → List Nat × Nat
  sched_setaffinity : Nat → List Nat → Nat

/-- The conversion loop of `GetCPUAffinity`: every mask word `i` appends
`int((val<<32)>>32)` and `int(val>>32)` with `val := uint(i)`. -/
def GetCPUAffinity.convert (mask : List Nat) : List Int :=
  mask.foldl
    (fun bits i =>
      let val := i % 2 ^ 64
      (bits ++ [intOfUint ((val * 2 ^ 32 % 2 ^ 64) / 2 ^ 32)]) ++ [intOfUint (val / 2 ^ 32)])
    []

/-- Function `GetCPUAffinity`, with the system call as a parameter. -/
def GetCPUAffinity (sys : Kernel) (Pid : String) : Except GoError Bitmap :=
  match Atoi Pid with
  | .error err => .error err
  | .ok pid =>
    let answer := sys.sched_getaffinity (uintptrOfInt pid)
    let bits := GetCPUAffinity.convert answer.1
    if answer.2 ≠ 0 then .error (GoError.errno answer.2)
    else .ok ⟨16 * 64, bits⟩

/-- What running a Go function body gives: it returns, or it stops with the
run-time error "index out of range [index] with length len". -/
inductive Run (α : Type) where
  | returned (value : α)
  | indexOutOfRange (index len : Nat)
  deriving DecidableEq

/-- The packing loop of `SetCPUAffinity`, from index `idx` on:
`mask[idx/2] |= uintptr(bit)`. -/
def SetCPUAffinity.pack : List Nat → Nat → List Int → Run (List Nat)
  | mask, _, [] => .returned mask
  | mask, idx, bit :: rest =>
    if idx / 2 < mask.length then
      SetCPUAffinity.pack (mask.set (idx / 2) (mask.getD (idx / 2) 0 ||| uintptrOfInt bit))
        (idx + 1) rest
    else .indexOutOfRange (idx / 2) mask.length

/-- Function `SetCPUAffinity`, with the system call as a parameter (`cpus` is a
non-nil pointer). -/
def SetCPUAffinity (sys : Kernel) (Pid : String) (cpus : Bitmap) : Run (Option GoError) :=
  match Atoi Pid with
  | .error err => .returned (some err)
  | .ok pid =>
    match SetCPUAffinity.pack (List.replicate 16 0) 0 cpus.Bits with
    | .indexOutOfRange index len => .indexOutOfRange index len
    | .returned mask =>
      let ierr := sys.sched_setaffinity (uintptrOfInt pid) mask
      if ierr ≠ 0 then .returned (some (GoError.errno ierr)) else .returned none

/-! ### Specification-side notions for the scans -/

/-- A space-separated token of a line: `tok` contains no space and occurs in
the line with a space, or an end of the line, on either side.  Stated on the
line padded with one space at each end. -/
def SpaceSeparatedToken (tok line : String) : Prop :=
  ' ' ∉ tok.data ∧
    ∃ a b : List Char, ' ' :: (line.data ++ [' ']) = a ++ ' ' :: (tok.data ++ ' ' :: b)

/-- A mounts-table line that is an entry of filesystem type "resctrl" mounted
on `path`: its second field is `path` and its third field is "resctrl". -/
def IsResctrlEntryFor (path line : String) : Prop :=
  (stringsSplit line ' ').get? 1 = some path ∧ (stringsSplit line ' ').get? 2 = some "resctrl"

/-- The lines at which the loop of `IsResctrlMounted` stops: more than three
fields, the third being "resctrl". -/
def IsResctrlMounted.stopsAt (text : String) : Bool :=
  decide (3 < (stringsSplit text ' ').length ∧ (stringsSplit text ' ').get? 2 = some "resctrl")

/-- CPU `c` is set in a kernel affinity mask of 64-bit words: bit `c mod 64`
of word `c div 64`. -/
def kernelMaskHasCPU (mask : List Nat) (c : Nat) : Bool :=
  (mask.getD (c / 64) 0).testBit (c % 64)

/-- CPU `c` is set in the 32-bit-indexed words of a bitmap: bit `c mod 32` of
word `c div 32`. -/
def bitmapHasCPU (bm : Bitmap) (c : Nat) : Bool :=
  ((bm.Bits.getD (c / 32) 0).toNat).testBit (c % 32)

end proc

/-! ## utils/pqos: the CLOS registry -/

namespace pqos

/-- The package-level variables the tests of `pqos_test.go` assign:
`availableCLOSes`, `usedCLOSes` and `sharedCLOS` (the empty string stands for
"no shared CLOS designated", as `TestGetSharedCLOS` resets it). -/
structure Registry where
  availableCLOSes : List String
  usedCLOSes : List String
  sharedCLOS : String
  deriving DecidableEq

/-- Modelled from the spec: the body of `UseAvailableCLOS` (spec: `Acquire`) is
not among the sources, only its test is.  It pops one id from `available`
into `inUse`, the first of the list as `TestUseAvailableCLOS` expects, and
fails with ResourceExhausted, returning the empty id, when `available` is empty. -/
def UseAvailableCLOS (r : Registry) : (String × Option GoError) × Registry :=
  match r.availableCLOSes with
  | [] => (("", some (GoError.msg "ResourceExhausted")), r)
  | id :: rest => ((id, none), ⟨rest, r.usedCLOSes ++ [id], r.sharedCLOS⟩)

/-- Modelled from the spec: the body of `ReturnClos` (spec: `Release`) is not
among the sources, only its test is.  It moves `id` from `inUse` back to
`available`, and fails with NotFound, leaving the state as it is, when `id`
is not currently in `inUse`. -/
def ReturnClos (r : Registry) (id : String) : Option GoError × Registry :=
  if id ∈ r.usedCLOSes then
    (none, ⟨r.availableCLOSes ++ [id], r.usedCLOSes.erase id, r.sharedCLOS⟩)
  else (some (GoError.msg "NotFound"), r)

/-- Modelled from the spec: the body of `GetSharedCLOS` (spec: `AcquireShared`)
is not among the sources, only its test is.  If `shared` is already assigned it
returns it, consuming nothing; otherwise it acquires a fresh id from
`available`, designates it `shared` and returns it; it fails with
ResourceExhausted if none is available and none was designated. -/
def GetSharedCLOS (r : Registry) : (String × Option GoError) × Registry :=
  if r.sharedCLOS ≠ "" then ((r.sharedCLOS, none), r)
  else
    match UseAvailableCLOS r with
    | ((_, some err), r1) => (("", some err), r1)
    | ((id, none), r1) => ((id, none), ⟨r1.availableCLOSes, r1.usedCLOSes, id⟩)

/-- Successive calls of a registry operation with no other call in between:
the results in call order, and the final state. -/
def callTimes {α : Type} (op : Registry → α × Registry) : Nat → Registry → List α × Registry
  | 0, r => ([], r)
  | n + 1, r =>
    let first := op r
    let later := callTimes op n first.2
    (first.1 :: later.1, later.2)

end pqos

end Rmd

/-! ## Facts about the library functions -/

namespace Rmd

theorem hasSubstr_iff (s sub : List Char) : hasSubstr s sub = true ↔ sub <:+: s := by
  induction s with
  | nil => simp [hasSubstr, List.isEmpty_iff]
  | cons c cs ih =>
    rw [hasSubstr, Bool.or_eq_true, ih, decide_eq_true_eq, List.infix_cons_iff]

theorem first_sep_cases (l : List Char) :
    ' ' ∉ l ∨ ∃ u v, l = u ++ ' ' :: v ∧ ' ' ∉ u := by
  induction l with
  | nil => left; simp
  | cons x xs ih =>
    by_cases hx : x = ' '
    · right; exact ⟨[], xs, by simp [hx], by simp⟩
    · rcases ih with h | ⟨u, v, huv, hu⟩
      · left
        intro hmem
        rcases List.mem_cons.1 hmem with h1 | h1
        · exact hx h1.symm
        · exact h h1
      · right
        refine ⟨x :: u, v, by simp [huv], ?_⟩
        intro hmem
        rcases List.mem_cons.1 hmem with h1 | h1
        · exact hx h1.symm
        · exact hu h1

theorem splitOn_no_sep (l : List Char) (h : ' ' ∉ l) : l.splitOn ' ' = [l] := by
  unfold List.splitOn
  apply List.splitOnP_eq_single
  intro x hx hp
  have : x = ' ' := by simpa using hp
  exact h (this ▸ hx)

theorem splitOn_first (u v : List Char) (h : ' ' ∉ u) :
    (u ++ ' ' :: v).splitOn ' ' = u :: v.splitOn ' ' := by
  unfold List.splitOn
  apply List.splitOnP_first
  · intro x hx hp
    have : x = ' ' := by simpa using hp
    exact h (this ▸ hx)
  · simp

theorem splitOn_append (u v : List Char) :
    (u ++ ' ' :: v).splitOn ' ' = u.splitOn ' ' ++ v.splitOn ' ' := by
  induction u with
  | nil =>
    have := splitOn_first [] v (by simp)
    simpa [List.splitOn_nil] using this
  | cons x xs ih =>
    unfold List.splitOn at ih ⊢
    rw [List.cons_append, List.splitOnP_cons, List.splitOnP_cons, ih]
    by_cases hx : (x == ' ') = true
    · simp [hx]
    · simp only [hx]
      cases hs : List.splitOnP (fun c => c == ' ') xs with
      | nil => exact absurd hs (List.splitOnP_ne_nil _ _)
      | cons a as => simp [List.modifyHead]

theorem mem_splitOn_token (n : Nat) : ∀ l : List Char, l.length ≤ n → ∀ t ∈ l.splitOn ' ',
    ' ' ∉ t ∧ ∃ a b, ' ' :: (l ++ [' ']) = a ++ ' ' :: (t ++ ' ' :: b) := by
  induction n with
  | zero =>
    intro l hl t ht
    have : l = [] := List.length_eq_zero.1 (Nat.le_zero.1 hl)
    subst this
    rw [List.splitOn_nil] at ht
    have : t = [] := by simpa using ht
    subst this
    exact ⟨by simp, [], [], by simp⟩
  | succ n ih =>
    intro l hl t ht
    rcases first_sep_cases l with h | ⟨u, v, huv, hu⟩
    · rw [splitOn_no_sep l h] at ht
      have : t = l := by simpa using ht
      subst this
      exact ⟨h, [], [], by simp⟩
    · subst huv
      rw [splitOn_first u v hu] at ht
      rcases List.mem_cons.1 ht with h1 | h1
      · subst h1
        exact ⟨hu, [], v ++ [' '], by simp⟩
      · have hv : v.length ≤ n := by
          simp only [List.length_append, List.length_cons] at hl
          omega
        obtain ⟨hns, a, b, hab⟩ := ih v hv t h1
        refine ⟨hns, ' ' :: u ++ a, b, ?_⟩
        have : ' ' :: ((u ++ ' ' :: v) ++ [' ']) = (' ' :: u) ++ (' ' :: (v ++ [' '])) := by simp
        rw [this, hab]
        simp

theorem token_mem_splitOn (t : List Char) (ht : ' ' ∉ t) (l a b : List Char)
    (h : ' ' :: (l ++ [' ']) = a ++ ' ' :: (t ++ ' ' :: b)) : t ∈ l.splitOn ' ' := by
  -- the text before the token, without the leading space of the padded line
  have key : ∀ a1 : List Char, l ++ [' '] = a1 ++ (t ++ ' ' :: b) →
      (a1 = [] ∨ ∃ a2, a1 = a2 ++ [' ']) → t ∈ l.splitOn ' ' := by
    intro a1 h1 ha1
    rcases List.eq_nil_or_concat b with hb | ⟨b1, z, hb⟩
    · subst hb
      have e : l ++ [' '] = (a1 ++ t) ++ [' '] := by simpa using h1
      have hl : l = a1 ++ t := List.append_cancel_right e
      rcases ha1 with h0 | ⟨a2, h2⟩
      · subst h0
        simp only [List.nil_append] at hl
        rw [hl, splitOn_no_sep t ht]; simp
      · subst h2
        have : l = a2 ++ ' ' :: t := by simpa using hl
        rw [this, splitOn_append, splitOn_no_sep t ht]; simp
    · subst hb
      have e : l ++ [' '] = (a1 ++ (t ++ ' ' :: b1)) ++ [z] := by simpa using h1
      have hl : l = a1 ++ (t ++ ' ' :: b1) := (List.append_inj' e rfl).1
      rcases ha1 with h0 | ⟨a2, h2⟩
      · subst h0
        simp only [List.nil_append] at hl
        rw [hl, splitOn_first t b1 ht]; simp
      · subst h2
        have : l = a2 ++ ' ' :: (t ++ ' ' :: b1) := by simpa using hl
        rw [this, splitOn_append, splitOn_first t b1 ht]; simp
  cases a with
  | nil =>
    have : l ++ [' '] = [] ++ (t ++ ' ' :: b) := by simpa using h
    exact key [] this (Or.inl rfl)
  | cons c a1 =>
    have hc : l ++ [' '] = a1 ++ ' ' :: (t ++ ' ' :: b) := by
      have := List.cons_eq_cons.1 (by simpa using h : ' ' :: (l ++ [' ']) = c :: (a1 ++ ' ' :: (t ++ ' ' :: b)))
      exact this.2
    have : l ++ [' '] = (a1 ++ [' ']) ++ (t ++ ' ' :: b) := by simpa using hc
    exact key (a1 ++ [' ']) this (Or.inr ⟨a1, rfl⟩)

end Rmd

/-! ## config: `MBAModeToInt` -/

namespace Rmd.config

/-- C2: `MBAModeToInt` returns (-1, nil) for "none", (0, nil) for "percentage"
and (1, nil) for "mbps"; for every other string (case variants and the empty
string included) it returns the sentinel -2 with a non-nil unsupported-mode
error; so it fails if and only if the mode is not one of the three strings. -/
theorem MBAModeToInt_spec (mode : String) :
    MBAModeToInt "none" = (-1, none) ∧
    MBAModeToInt "percentage" = (0, none) ∧
    MBAModeToInt "mbps" = (1, none) ∧
    ((MBAModeToInt mode).2 ≠ none ↔
      (mode ≠ "none" ∧ mode ≠ "percentage" ∧ mode ≠ "mbps")) ∧
    ((MBAModeToInt mode).2 ≠ none →
      MBAModeToInt mode =
        (-2, some (GoError.msg ("Unsupported MBA mode: [" ++ mode ++ "]")))) ∧
    MBAModeToInt "None" = (-2, some (GoError.msg "Unsupported MBA mode: [None]")) ∧
    MBAModeToInt "MBPS" = (-2, some (GoError.msg "Unsupported MBA mode: [MBPS]")) ∧
    MBAModeToInt "" = (-2, some (GoError.msg "Unsupported MBA mode: []")) := by
  refine ⟨by decide, by decide, by decide, ?_, ?_, by decide, by decide, by decide⟩
  · unfold MBAModeToInt
    split_ifs with h1 h2 h3 <;> simp_all
  · unfold MBAModeToInt
    split_ifs with h1 h2 h3 <;> simp_all

end Rmd.config

/-! ## proc: the scans -/

namespace Rmd.proc

theorem mem_stringsSplit_iff (tok line : String) :
    tok ∈ stringsSplit line ' ' ↔ SpaceSeparatedToken tok line := by
  unfold stringsSplit SpaceSeparatedToken
  constructor
  · intro h
    obtain ⟨t, ht, rfl⟩ := List.mem_map.1 h
    exact mem_splitOn_token _ line.data (le_refl _) t ht
  · rintro ⟨hns, a, b, hab⟩
    exact List.mem_map.2 ⟨tok.data, token_mem_splitOn tok.data hns line.data a b hab, rfl⟩

theorem parseCPUInfoFile_scan_iff (flag : String) (lines : List String) :
    parseCPUInfoFile.scan flag lines = true ↔
      ∃ line ∈ lines, flag ∈ stringsSplit line ' ' := by
  induction lines with
  | nil => simp [parseCPUInfoFile.scan]
  | cons text rest ih =>
    unfold parseCPUInfoFile.scan
    by_cases h : flag ∈ stringsSplit text ' '
    · have : (stringsSplit text ' ').any (fun f => decide (f = flag)) = true := by
        simp [List.any_eq_true, h]
      simp [this, h]
    · have : ¬ (stringsSplit text ' ').any (fun f => decide (f = flag)) = true := by
        simpa [List.any_eq_true] using h
      simp [this, h, ih]

/-- C7: for every readable capability-descriptor content and every flag,
`parseCPUInfoFile` returns (true, nil) if and only if some line has a
space-separated token exactly equal to the flag, and (false, nil) otherwise; a
flag that occurs only inside a longer token ("cqm" in "cqm_llc") is not found,
and not-found is never an error. -/
theorem parseCPUInfoFile_token_match (lines : List String) (flag : String) :
    (parseCPUInfoFile (.content lines none) flag = (true, none) ↔
      ∃ line ∈ lines, SpaceSeparatedToken flag line) ∧
    (parseCPUInfoFile (.content lines none) flag = (false, none) ↔
      ¬ ∃ line ∈ lines, SpaceSeparatedToken flag line) ∧
    (parseCPUInfoFile (.content lines none) flag).2 = none ∧
    parseCPUInfoFile
      (.content ["processor : 0", "flags : fpu cqm_llc cqm_occup_llc rdt_a"] none) "cqm"
      = (false, none) ∧
    parseCPUInfoFile
      (.content ["processor : 0", "flags : fpu cqm_llc cqm_occup_llc rdt_a"] none) "rdt_a"
      = (true, none) := by
  have key : parseCPUInfoFile.scan flag lines = true ↔
      ∃ line ∈ lines, SpaceSeparatedToken flag line := by
    rw [parseCPUInfoFile_scan_iff]
    constructor
    · rintro ⟨line, hl, ht⟩
      exact ⟨line, hl, (mem_stringsSplit_iff flag line).1 ht⟩
    · rintro ⟨line, hl, ht⟩
      exact ⟨line, hl, (mem_stringsSplit_iff flag line).2 ht⟩
  refine ⟨?_, ?_, ?_, by decide, by decide⟩
  · rw [← key]
    unfold parseCPUInfoFile
    by_cases h : parseCPUInfoFile.scan flag lines = true <;> simp [h]
  · rw [← key]
    unfold parseCPUInfoFile
    by_cases h : parseCPUInfoFile.scan flag lines = true <;> simp [h]
  · unfold parseCPUInfoFile
    by_cases h : parseCPUInfoFile.scan flag lines = true <;> simp [h]

theorem IsResctrlMounted_scan_eq (flag : String) (lines : List String) :
    IsResctrlMounted.scan flag lines =
      match lines.find? IsResctrlMounted.stopsAt with
      | none => false
      | some text => decide ((stringsSplit text ' ').get? 1 = some flag) := by
  induction lines with
  | nil => simp [IsResctrlMounted.scan]
  | cons text rest ih =>
    unfold IsResctrlMounted.scan
    by_cases h : 3 < (stringsSplit text ' ').length ∧
        (stringsSplit text ' ').get? 2 = some "resctrl"
    · have hs : IsResctrlMounted.stopsAt text = true := by
        unfold IsResctrlMounted.stopsAt
        exact decide_eq_true h
      simp only [h, and_self, if_true, List.find?_cons, hs]
      by_cases h1 : (stringsSplit text ' ').get? 1 = some flag <;> simp [h1]
    · have hs : IsResctrlMounted.stopsAt text = false := by
        unfold IsResctrlMounted.stopsAt
        exact decide_eq_false h
      simp only [h, if_false, List.find?_cons, hs, ih]

/-- C6 (as the code has it): `IsResctrlMounted` looks only at the first line
of the table that has more than three space-separated fields and "resctrl" as
its third field; it returns true exactly when that line has `path` as its
second field, and false when no line qualifies.  A true result always comes
from an entry of type "resctrl" mounted on `path`. -/
theorem IsResctrlMounted_first_entry (lines : List String) (scanErr : Option GoError)
    (path : String) :
    (IsResctrlMounted (.content lines scanErr) path =
      match lines.find? IsResctrlMounted.stopsAt with
      | none => false
      | some text => decide ((stringsSplit text ' ').get? 1 = some path)) ∧
    (IsResctrlMounted (.content lines scanErr) path = true →
      ∃ line ∈ lines, IsResctrlEntryFor path line) := by
  have h1 : IsResctrlMounted (.content lines scanErr) path =
      match lines.find? IsResctrlMounted.stopsAt with
      | none => false
      | some text => decide ((stringsSplit text ' ').get? 1 = some path) :=
    IsResctrlMounted_scan_eq path lines
  refine ⟨h1, ?_⟩
  intro h
  rw [h1] at h
  cases hf : lines.find? IsResctrlMounted.stopsAt with
  | none => simp [hf] at h
  | some text =>
    simp only [hf, decide_eq_true_eq] at h
    have hmem : text ∈ lines := List.mem_of_find?_eq_some hf
    have hstop : IsResctrlMounted.stopsAt text = true := List.find?_some hf
    simp only [IsResctrlMounted.stopsAt, decide_eq_true_eq] at hstop
    exact ⟨text, hmem, h, hstop.2⟩

/-- C6, counterexample: a table whose second line is a resctrl entry mounted
on the path, behind a resctrl entry mounted elsewhere, gives false. -/
theorem IsResctrlMounted_later_entry_missed :
    ¬ (IsResctrlMounted
        (.content ["resctrl /sys/fs/resctrl resctrl rw,relatime 0 0",
                   "resctrl /mnt/resctrl resctrl rw,relatime 0 0"] none) "/mnt/resctrl" = true ↔
      ∃ line ∈ ["resctrl /sys/fs/resctrl resctrl rw,relatime 0 0",
                "resctrl /mnt/resctrl resctrl rw,relatime 0 0"],
        IsResctrlEntryFor "/mnt/resctrl" line) := by
  intro h
  have hex : ∃ line ∈ ["resctrl /sys/fs/resctrl resctrl rw,relatime 0 0",
                "resctrl /mnt/resctrl resctrl rw,relatime 0 0"],
        IsResctrlEntryFor "/mnt/resctrl" line :=
    ⟨"resctrl /mnt/resctrl resctrl rw,relatime 0 0", by simp,
      by unfold IsResctrlEntryFor; decide⟩
  have := h.2 hex
  revert this
  decide

end Rmd.proc

namespace Rmd.proc

theorem utf8ByteSize_pos_iff (s : String) : 0 < s.utf8ByteSize ↔ s ≠ "" := by
  rcases s with ⟨l⟩
  cases l with
  | nil => simp [String.utf8ByteSize, String.utf8ByteSize.go]
  | cons c cs =>
    have hc := Char.utf8Size_pos c
    have hne : String.mk (c :: cs) ≠ "" := by
      intro h
      have := congrArg String.data h
      simp at this
    simp only [String.utf8ByteSize, String.utf8ByteSize.go, ne_eq, hne, not_false_eq_true,
      iff_true]
    omega

theorem findMountDir_scan_eq (mountdir : String) (lines : List String) :
    findMountDir.scan mountdir lines =
      lines.find? (fun text => stringsContains text mountdir) := by
  induction lines with
  | nil => simp [findMountDir.scan]
  | cons text rest ih =>
    unfold findMountDir.scan
    by_cases h : stringsContains text mountdir = true
    · simp [h]
    · simp [h, ih]

/-- C9: for every mount-info content and every control path, `IsEnableCdp` and
`IsEnableCat` are never both true; whenever `findMountDir` finds a non-empty
line for the path exactly one of them is true (CDP when the line contains
"cdp", CAT otherwise); both are false when no line is found.  The line found
is the first line of the content that contains the path. -/
theorem IsEnableCdp_IsEnableCat_exclusive (mountinfo : ScannedFile) (path : String) :
    ¬ (IsEnableCdp mountinfo path = true ∧ IsEnableCat mountinfo path = true) ∧
    (∀ line, findMountDir mountinfo path = .ok line → line ≠ "" →
      IsEnableCdp mountinfo path = stringsContains line "cdp" ∧
      IsEnableCat mountinfo path = !stringsContains line "cdp" ∧
      IsEnableCat mountinfo path = !IsEnableCdp mountinfo path) ∧
    (∀ err, findMountDir mountinfo path = .error err →
      IsEnableCdp mountinfo path = false ∧ IsEnableCat mountinfo path = false) ∧
    (∀ lines scanErr, mountinfo = .content lines scanErr →
      findMountDir mountinfo path =
        match lines.find? (fun text => stringsContains text path) with
        | some text => .ok text
        | none => .error (GoError.msg ("Can not found the mount entry: " ++ path))) := by
  refine ⟨?_, ?_, ?_, ?_⟩
  · rintro ⟨h1, h2⟩
    unfold IsEnableCdp at h1
    unfold IsEnableCat at h2
    cases hf : findMountDir mountinfo path with
    | error e => simp [hf] at h1
    | ok mount =>
      simp only [hf] at h1 h2
      simp [h1] at h2
  · intro line hfind hne
    have hpos : 0 < line.utf8ByteSize := (utf8ByteSize_pos_iff line).2 hne
    unfold IsEnableCdp IsEnableCat
    simp [hfind, hpos]
  · intro err hfind
    unfold IsEnableCdp IsEnableCat
    simp [hfind]
  · intro lines scanErr hm
    subst hm
    simp only [findMountDir, findMountDir_scan_eq]

/-- C9, at a concrete mount table: a CDP mount gives CDP and not CAT, a plain
mount gives CAT and not CDP, and a table without the path gives neither. -/
theorem IsEnableCdp_IsEnableCat_exclusive_witness :
    (IsEnableCdp (.content ["22 27 0:21 / /sys rw - sysfs sysfs rw",
        "44 22 0:39 / /sys/fs/resctrl rw,relatime - resctrl resctrl rw,cdp"] none)
        "/sys/fs/resctrl" = true ∧
     IsEnableCat (.content ["22 27 0:21 / /sys rw - sysfs sysfs rw",
        "44 22 0:39 / /sys/fs/resctrl rw,relatime - resctrl resctrl rw,cdp"] none)
        "/sys/fs/resctrl" = false) ∧
    (IsEnableCdp (.content ["44 22 0:39 / /sys/fs/resctrl rw,relatime - resctrl resctrl rw"]
        none) "/sys/fs/resctrl" = false ∧
     IsEnableCat (.content ["44 22 0:39 / /sys/fs/resctrl rw,relatime - resctrl resctrl rw"]
        none) "/sys/fs/resctrl" = true) ∧
    (IsEnableCdp (.content ["22 27 0:21 / /sys rw - sysfs sysfs rw"] none)
        "/sys/fs/resctrl" = false ∧
     IsEnableCat (.content ["22 27 0:21 / /sys rw - sysfs sysfs rw"] none)
        "/sys/fs/resctrl" = false) := by
  have h1 := (IsEnableCdp_IsEnableCat_exclusive
    (.content ["22 27 0:21 / /sys rw - sysfs sysfs rw",
        "44 22 0:39 / /sys/fs/resctrl rw,relatime - resctrl resctrl rw,cdp"] none)
    "/sys/fs/resctrl").2.1
    "44 22 0:39 / /sys/fs/resctrl rw,relatime - resctrl resctrl rw,cdp" (by decide) (by decide)
  have h2 := (IsEnableCdp_IsEnableCat_exclusive
    (.content ["44 22 0:39 / /sys/fs/resctrl rw,relatime - resctrl resctrl rw"] none)
    "/sys/fs/resctrl").2.1
    "44 22 0:39 / /sys/fs/resctrl rw,relatime - resctrl resctrl rw" (by decide) (by decide)
  have h3 := (IsEnableCdp_IsEnableCat_exclusive
    (.content ["22 27 0:21 / /sys rw - sysfs sysfs rw"] none)
    "/sys/fs/resctrl").2.2.1
    (GoError.msg "Can not found the mount entry: /sys/fs/resctrl") (by decide)
  refine ⟨⟨?_, ?_⟩, ⟨?_, ?_⟩, h3⟩
  · rw [h1.1]; decide
  · rw [h1.2.1]; decide
  · rw [h2.1]; decide
  · rw [h2.2.1]; decide

end Rmd.proc

/-! ## pqos: the CLOS registry -/

namespace Rmd.pqos

theorem callTimes_succ {α : Type} (op : Registry → α × Registry) (n : Nat) (r : Registry) :
    callTimes op (n + 1) r =
      ((op r).1 :: (callTimes op n (op r).2).1, (callTimes op n (op r).2).2) := rfl

theorem UseAvailableCLOS_cons (id : String) (rest used : List String) (shared : String) :
    UseAvailableCLOS ⟨id :: rest, used, shared⟩ =
      ((id, none), ⟨rest, used ++ [id], shared⟩) := rfl

theorem callTimes_UseAvailableCLOS_all (avail : List String) :
    ∀ (used : List String) (shared : String),
      callTimes UseAvailableCLOS avail.length ⟨avail, used, shared⟩ =
        (avail.map (fun id => (id, none)), ⟨[], used ++ avail, shared⟩) := by
  induction avail with
  | nil => intro used shared; simp [callTimes]
  | cons id rest ih =>
    intro used shared
    rw [List.length_cons, callTimes_succ, UseAvailableCLOS_cons, ih]
    simp

theorem callTimes_UseAvailableCLOS_succ (avail : List String) :
    ∀ (used : List String) (shared : String),
      callTimes UseAvailableCLOS (avail.length + 1) ⟨avail, used, shared⟩ =
        (avail.map (fun id => (id, none)) ++ [("", some (GoError.msg "ResourceExhausted"))],
          ⟨[], used ++ avail, shared⟩) := by
  induction avail with
  | nil => intro used shared; simp [callTimes, UseAvailableCLOS]
  | cons id rest ih =>
    intro used shared
    rw [List.length_cons, callTimes_succ, UseAvailableCLOS_cons, ih]
    simp

/-- C3: for every available list of n distinct ids and an empty in-use list,
n+1 successive `UseAvailableCLOS` calls return the ids in list order on the
first n calls, all distinct and without error, and the (n+1)-th call fails with
an error and returns the empty id; the ids are then all in use. -/
theorem UseAvailableCLOS_in_list_order (avail : List String) (shared : String)
    (hdistinct : avail.Nodup) :
    (callTimes UseAvailableCLOS (avail.length + 1) ⟨avail, [], shared⟩).1 =
      avail.map (fun id => (id, none)) ++ [("", some (GoError.msg "ResourceExhausted"))] ∧
    (callTimes UseAvailableCLOS avail.length ⟨avail, [], shared⟩).1 =
      avail.map (fun id => (id, none)) ∧
    ((callTimes UseAvailableCLOS avail.length ⟨avail, [], shared⟩).1.map Prod.fst).Nodup ∧
    (callTimes UseAvailableCLOS (avail.length + 1) ⟨avail, [], shared⟩).2 =
      ⟨[], avail, shared⟩ := by
  rw [callTimes_UseAvailableCLOS_succ, callTimes_UseAvailableCLOS_all]
  refine ⟨rfl, rfl, ?_, by simp⟩
  simpa [List.map_map, Function.comp_def] using hdistinct

/-- C3, at the list of `TestUseAvailableCLOS`: COS2, COS3, COS4, then failure. -/
theorem UseAvailableCLOS_in_list_order_witness :
    (callTimes UseAvailableCLOS 4 ⟨["COS2", "COS3", "COS4"], [], ""⟩).1 =
      [("COS2", none), ("COS3", none), ("COS4", none),
        ("", some (GoError.msg "ResourceExhausted"))] :=
  (UseAvailableCLOS_in_list_order ["COS2", "COS3", "COS4"] "" (by decide)).1

/-- C4: `ReturnClos x` succeeds exactly when `x` is in the in-use list, and
then moves `x` from in-use to available; otherwise it returns an error and
leaves the registry unchanged (so a second release of an id that was in use
once fails); the two lists together keep their size in every case. -/
theorem ReturnClos_spec (r : Registry) (x : String) :
    ((ReturnClos r x).1 = none ↔ x ∈ r.usedCLOSes) ∧
    (x ∈ r.usedCLOSes →
      (ReturnClos r x).2.usedCLOSes = r.usedCLOSes.erase x ∧
      (ReturnClos r x).2.availableCLOSes = r.availableCLOSes ++ [x] ∧
      (ReturnClos r x).2.sharedCLOS = r.sharedCLOS) ∧
    (x ∉ r.usedCLOSes → (ReturnClos r x).1 ≠ none ∧ (ReturnClos r x).2 = r) ∧
    (r.usedCLOSes.Nodup → x ∉ (ReturnClos r x).2.usedCLOSes ∧
      (ReturnClos (ReturnClos r x).2 x).1 ≠ none ∧
      (ReturnClos (ReturnClos r x).2 x).2 = (ReturnClos r x).2) ∧
    ((ReturnClos r x).2.availableCLOSes.length + (ReturnClos r x).2.usedCLOSes.length =
      r.availableCLOSes.length + r.usedCLOSes.length) := by
  by_cases h : x ∈ r.usedCLOSes
  · have hlen : (r.usedCLOSes.erase x).length + 1 = r.usedCLOSes.length := by
      rw [List.length_erase_of_mem h]
      have : 0 < r.usedCLOSes.length := List.length_pos_of_mem h
      omega
    refine ⟨by simp [ReturnClos, h], fun _ => by simp [ReturnClos, h], fun hn => absurd h hn,
      ?_, ?_⟩
    · intro hnd
      have hx : x ∉ r.usedCLOSes.erase x := fun hm => (List.Nodup.mem_erase_iff hnd).1 hm |>.1 rfl
      simp [ReturnClos, h, hx]
    · simp only [ReturnClos, h, if_true, List.length_append, List.length_singleton]
      omega
  · refine ⟨by simp [ReturnClos, h], fun hm => absurd hm h, fun _ => by simp [ReturnClos, h],
      ?_, by simp [ReturnClos, h]⟩
    intro _
    simp [ReturnClos, h]

/-- C4, at the state and the calls of `TestReturnClos`: COS5 succeeds, COS123
fails, COS6 succeeds, COS5 again fails; 0 ids in use and 5 available at the end. -/
theorem ReturnClos_spec_witness :
    (ReturnClos ⟨["COS2", "COS3", "COS4"], ["COS5", "COS6"], ""⟩ "COS5").1 = none ∧
    (ReturnClos ⟨["COS2", "COS3", "COS4", "COS5"], ["COS6"], ""⟩ "COS123").1 ≠ none ∧
    (ReturnClos ⟨["COS2", "COS3", "COS4", "COS5"], ["COS6"], ""⟩ "COS6").1 = none ∧
    (ReturnClos ⟨["COS2", "COS3", "COS4", "COS5", "COS6"], [], ""⟩ "COS5").1 ≠ none ∧
    (ReturnClos ⟨["COS2", "COS3", "COS4", "COS5", "COS6"], [], ""⟩ "COS5").2 =
      ⟨["COS2", "COS3", "COS4", "COS5", "COS6"], [], ""⟩ :=
  ⟨(ReturnClos_spec ⟨["COS2", "COS3", "COS4"], ["COS5", "COS6"], ""⟩ "COS5").1.2 (by decide),
   ((ReturnClos_spec ⟨["COS2", "COS3", "COS4", "COS5"], ["COS6"], ""⟩ "COS123").2.2.1
      (by decide)).1,
   (ReturnClos_spec ⟨["COS2", "COS3", "COS4", "COS5"], ["COS6"], ""⟩ "COS6").1.2 (by decide),
   ((ReturnClos_spec ⟨["COS2", "COS3", "COS4", "COS5", "COS6"], [], ""⟩ "COS5").2.2.1
      (by decide)).1,
   ((ReturnClos_spec ⟨["COS2", "COS3", "COS4", "COS5", "COS6"], [], ""⟩ "COS5").2.2.1
      (by decide)).2⟩

theorem callTimes_GetSharedCLOS_designated (r : Registry) (h : r.sharedCLOS ≠ "") (n : Nat) :
    callTimes GetSharedCLOS n r = (List.replicate n (r.sharedCLOS, none), r) := by
  induction n with
  | zero => simp [callTimes]
  | succ n ih =>
    have h1 : GetSharedCLOS r = ((r.sharedCLOS, none), r) := by simp [GetSharedCLOS, h]
    simp only [callTimes, h1, ih, List.replicate_succ]

/-- C5: with no shared id designated, `GetSharedCLOS` fails when the available
list is empty and otherwise takes the first available id and designates it
shared; once a shared id is designated, every later call returns that same id
and leaves the registry, its available list included, as it is, whatever the
available list holds. -/
theorem GetSharedCLOS_idempotent (r : Registry) :
    (r.sharedCLOS = "" → r.availableCLOSes = [] →
      (GetSharedCLOS r).1.1 = "" ∧ (GetSharedCLOS r).1.2 ≠ none ∧ (GetSharedCLOS r).2 = r) ∧
    (r.sharedCLOS = "" → ∀ id rest, r.availableCLOSes = id :: rest →
      (GetSharedCLOS r).1 = (id, none) ∧ (GetSharedCLOS r).2.sharedCLOS = id ∧
      (GetSharedCLOS r).2.availableCLOSes = rest) ∧
    (r.sharedCLOS ≠ "" → ∀ n,
      callTimes GetSharedCLOS n r = (List.replicate n (r.sharedCLOS, none), r)) := by
  refine ⟨?_, ?_, fun h n => callTimes_GetSharedCLOS_designated r h n⟩
  · intro hs ha
    simp [GetSharedCLOS, UseAvailableCLOS, hs, ha]
  · intro hs id rest ha
    simp [GetSharedCLOS, UseAvailableCLOS, hs, ha]

/-- C5, at the calls of `TestGetSharedCLOS`: failure on an empty list, then
COS7 is designated, then COS7 is returned again from an empty available list. -/
theorem GetSharedCLOS_idempotent_witness :
    ((GetSharedCLOS ⟨[], [], ""⟩).1.2 ≠ none) ∧
    ((GetSharedCLOS ⟨["COS7"], [], ""⟩).1 = ("COS7", none)) ∧
    (callTimes GetSharedCLOS 2 ⟨[], ["COS7"], "COS7"⟩ =
      ([("COS7", none), ("COS7", none)], ⟨[], ["COS7"], "COS7"⟩)) :=
  ⟨((GetSharedCLOS_idempotent ⟨[], [], ""⟩).1 rfl rfl).2.1,
   ((GetSharedCLOS_idempotent ⟨["COS7"], [], ""⟩).2.1 rfl "COS7" [] rfl).1,
   (GetSharedCLOS_idempotent ⟨[], ["COS7"], "COS7"⟩).2.2 (by decide) 2⟩

end Rmd.pqos

/-! ## proc: CPU-affinity words -/

namespace Rmd.proc

theorem intOfUint_small (x : Nat) (h : x < 2 ^ 63) : intOfUint x = (x : Int) := by
  unfold intOfUint
  have h1 : x % 2 ^ 64 = x := Nat.mod_eq_of_lt (by omega)
  rw [h1, if_pos h]

theorem convert_foldl_acc (mask : List Nat) : ∀ acc : List Int,
    mask.foldl
      (fun bits i =>
        let val := i % 2 ^ 64
        (bits ++ [intOfUint ((val * 2 ^ 32 % 2 ^ 64) / 2 ^ 32)]) ++ [intOfUint (val / 2 ^ 32)])
      acc = acc ++ GetCPUAffinity.convert mask := by
  induction mask with
  | nil => intro acc; simp [GetCPUAffinity.convert]
  | cons w ws ih =>
    intro acc
    unfold GetCPUAffinity.convert
    rw [List.foldl_cons, List.foldl_cons, ih, ih ((([] : List Int) ++ _) ++ _)]
    simp

theorem convert_cons (w : Nat) (ws : List Nat) (hw : w < 2 ^ 64) :
    GetCPUAffinity.convert (w :: ws) =
      ((w % 2 ^ 32 : Nat) : Int) :: ((w / 2 ^ 32 : Nat) : Int) :: GetCPUAffinity.convert ws := by
  have hlo : (w % 2 ^ 64 * 2 ^ 32 % 2 ^ 64) / 2 ^ 32 = w % 2 ^ 32 := by omega
  have hhi : w % 2 ^ 64 / 2 ^ 32 = w / 2 ^ 32 := by omega
  have e : GetCPUAffinity.convert (w :: ws) =
      ((([] : List Int) ++ [intOfUint ((w % 2 ^ 64 * 2 ^ 32 % 2 ^ 64) / 2 ^ 32)]) ++
        [intOfUint (w % 2 ^ 64 / 2 ^ 32)]) ++ GetCPUAffinity.convert ws := by
    show List.foldl _ _ ws = _
    exact convert_foldl_acc ws _
  rw [e, hlo, hhi, intOfUint_small _ (by omega), intOfUint_small _ (by omega)]
  simp

theorem convert_length (mask : List Nat) (hw : ∀ w ∈ mask, w < 2 ^ 64) :
    (GetCPUAffinity.convert mask).length = 2 * mask.length := by
  induction mask with
  | nil => simp [GetCPUAffinity.convert]
  | cons w ws ih =>
    rw [convert_cons w ws (hw w (List.mem_cons_self _ _)), List.length_cons, List.length_cons,
      ih (fun v hv => hw v (List.mem_cons_of_mem _ hv)), List.length_cons]
    omega

theorem convert_words (mask : List Nat) (hw : ∀ w ∈ mask, w < 2 ^ 64) :
    ∀ k, k < mask.length →
      (GetCPUAffinity.convert mask).get? (2 * k) = some ((mask.getD k 0 % 2 ^ 32 : Nat) : Int) ∧
      (GetCPUAffinity.convert mask).get? (2 * k + 1) =
        some ((mask.getD k 0 / 2 ^ 32 : Nat) : Int) := by
  induction mask with
  | nil => intro k hk; simp at hk
  | cons w ws ih =>
    intro k hk
    rw [convert_cons w ws (hw w (List.mem_cons_self _ _))]
    cases k with
    | zero => simp
    | succ k =>
      have hk1 : k < ws.length := by simpa using hk
      have := ih (fun v hv => hw v (List.mem_cons_of_mem _ hv)) k hk1
      have e1 : 2 * (k + 1) = (2 * k + 1) + 1 := by omega
      rw [e1]
      simpa using this

theorem testBit_low_half (w j : Nat) (hj : j < 32) :
    (w % 2 ^ 32).testBit j = w.testBit j := by
  rw [Nat.testBit_mod_two_pow]
  simp [hj]

theorem testBit_high_half (w j : Nat) : (w / 2 ^ 32).testBit j = w.testBit (32 + j) := by
  rw [← Nat.shiftRight_eq_div_pow, Nat.testBit_shiftRight]

/-- C8: for every 16-word kernel mask returned with error code zero,
`GetCPUAffinity` gives a bitmap with `Len = 1024` and exactly 32 words; for
each k < 16 word 2k is `mask[k] mod 2^32` and word 2k+1 is `mask[k] div 2^32`;
so CPU c < 1024 is set in the kernel mask if and only if bit `c mod 32` of
word `c div 32` is set. -/
theorem GetCPUAffinity_splits_words (sys : Kernel) (Pid : String) (pid : Int)
    (mask : List Nat) (hpid : Atoi Pid = .ok pid)
    (hsys : sys.sched_getaffinity (uintptrOfInt pid) = (mask, 0))
    (hlen : mask.length = 16) (hword : ∀ w ∈ mask, w < 2 ^ 64) :
    ∃ bm, GetCPUAffinity sys Pid = .ok bm ∧ bm.Len = 1024 ∧ bm.Bits.length = 32 ∧
      (∀ k, k < 16 →
        bm.Bits.get? (2 * k) = some ((mask.getD k 0 % 2 ^ 32 : Nat) : Int) ∧
        bm.Bits.get? (2 * k + 1) = some ((mask.getD k 0 / 2 ^ 32 : Nat) : Int)) ∧
      (∀ c, c < 1024 → kernelMaskHasCPU mask c = bitmapHasCPU bm c) := by
  have hwords : ∀ k, k < 16 →
      (GetCPUAffinity.convert mask).get? (2 * k) = some ((mask.getD k 0 % 2 ^ 32 : Nat) : Int) ∧
      (GetCPUAffinity.convert mask).get? (2 * k + 1) =
        some ((mask.getD k 0 / 2 ^ 32 : Nat) : Int) :=
    fun k hk => convert_words mask hword k (by omega)
  refine ⟨⟨16 * 64, GetCPUAffinity.convert mask⟩, ?_, by norm_num, ?_, hwords, ?_⟩
  · simp [GetCPUAffinity, hpid, hsys]
  · show (GetCPUAffinity.convert mask).length = 32
    rw [convert_length mask hword, hlen]
  · intro c hc
    unfold kernelMaskHasCPU bitmapHasCPU
    show _ = (((GetCPUAffinity.convert mask).getD (c / 32) 0).toNat).testBit (c % 32)
    have hk : c / 64 < 16 := by omega
    obtain ⟨hlo, hhi⟩ := hwords (c / 64) hk
    by_cases hhalf : c % 64 < 32
    · have e1 : c / 32 = 2 * (c / 64) := by omega
      have e2 : c % 32 = c % 64 := by omega
      have hb : (GetCPUAffinity.convert mask).getD (2 * (c / 64)) 0 =
          ((mask.getD (c / 64) 0 % 2 ^ 32 : Nat) : Int) := by
        rw [List.getD_eq_getD_get?, hlo]; rfl
      rw [e1, e2, hb, Int.toNat_ofNat]
      exact (testBit_low_half _ _ hhalf).symm
    · have e1 : c / 32 = 2 * (c / 64) + 1 := by omega
      have e2 : c % 64 = 32 + c % 32 := by omega
      have hb : (GetCPUAffinity.convert mask).getD (2 * (c / 64) + 1) 0 =
          ((mask.getD (c / 64) 0 / 2 ^ 32 : Nat) : Int) := by
        rw [List.getD_eq_getD_get?, hhi]; rfl
      rw [e1, e2, hb, Int.toNat_ofNat]
      exact (testBit_high_half _ _).symm

/-- C8, at a mask with exactly the CPUs 0, 31, 32, 63, 64 and 1023 set. -/
theorem GetCPUAffinity_splits_words_witness :
    ∃ bm, GetCPUAffinity
        ⟨fun _ => ([2 ^ 63 + 2 ^ 32 + 2 ^ 31 + 1, 1, 0, 0, 0, 0, 0, 0, 0, 0, 0, 0, 0, 0, 0, 2 ^ 63],
          0), fun _ _ => 0⟩ "4242" = .ok bm ∧
      bm.Len = 1024 ∧ bm.Bits.length = 32 ∧
      (∀ k, k < 16 →
        bm.Bits.get? (2 * k) = some (((
          [2 ^ 63 + 2 ^ 32 + 2 ^ 31 + 1, 1, 0, 0, 0, 0, 0, 0, 0, 0, 0, 0, 0, 0, 0, 2 ^ 63]
            : List Nat).getD k 0 % 2 ^ 32 : Nat) : Int) ∧
        bm.Bits.get? (2 * k + 1) = some (((
          [2 ^ 63 + 2 ^ 32 + 2 ^ 31 + 1, 1, 0, 0, 0, 0, 0, 0, 0, 0, 0, 0, 0, 0, 0, 2 ^ 63]
            : List Nat).getD k 0 / 2 ^ 32 : Nat) : Int)) ∧
      (∀ c, c < 1024 →
        kernelMaskHasCPU
          [2 ^ 63 + 2 ^ 32 + 2 ^ 31 + 1, 1, 0, 0, 0, 0, 0, 0, 0, 0, 0, 0, 0, 0, 0, 2 ^ 63] c =
          bitmapHasCPU bm c) :=
  GetCPUAffinity_splits_words
    ⟨fun _ => ([2 ^ 63 + 2 ^ 32 + 2 ^ 31 + 1, 1, 0, 0, 0, 0, 0, 0, 0, 0, 0, 0, 0, 0, 0, 2 ^ 63],
      0), fun _ _ => 0⟩ "4242" 4242
    [2 ^ 63 + 2 ^ 32 + 2 ^ 31 + 1, 1, 0, 0, 0, 0, 0, 0, 0, 0, 0, 0, 0, 0, 0, 2 ^ 63]
    (by decide) rfl (by decide) (by decide)

theorem pack_in_range : ∀ (bits : List Int) (mask : List Nat) (idx : Nat),
    mask.length = 16 → idx + bits.length ≤ 32 →
      ∃ m, SetCPUAffinity.pack mask idx bits = .returned m ∧ m.length = 16 := by
  intro bits
  induction bits with
  | nil => intro mask idx hm _; exact ⟨mask, rfl, hm⟩
  | cons bit rest ih =>
    intro mask idx hm hlen
    simp only [List.length_cons] at hlen
    have hidx : idx / 2 < mask.length := by omega
    unfold SetCPUAffinity.pack
    rw [if_pos hidx]
    exact ih _ (idx + 1) (by simp [hm]) (by omega)

theorem pack_out_of_range : ∀ (bits : List Int) (mask : List Nat) (idx : Nat),
    mask.length = 16 → idx ≤ 32 → 32 < idx + bits.length →
      SetCPUAffinity.pack mask idx bits = .indexOutOfRange 16 16 := by
  intro bits
  induction bits with
  | nil => intro mask idx _ h1 h2; simp at h2; omega
  | cons bit rest ih =>
    intro mask idx hm h1 h2
    simp only [List.length_cons] at h2
    unfold SetCPUAffinity.pack
    by_cases hidx : idx / 2 < mask.length
    · rw [if_pos hidx]
      exact ih _ (idx + 1) (by simp [hm]) (by omega) (by omega)
    · rw [if_neg hidx]
      have : idx = 32 := by omega
      subst this
      rw [hm]

/-- C10: for a valid pid, the packing loop of `SetCPUAffinity` stays inside
the 16-word mask exactly when `cpus.Bits` has at most 32 words: with at most 32
words the function returns, and with 33 or more words the loop indexes
`mask[16]` and stops with an index error instead of returning. -/
theorem SetCPUAffinity_index_range (sys : Kernel) (Pid : String) (pid : Int) (cpus : Bitmap)
    (hpid : Atoi Pid = .ok pid) :
    ((∃ err, SetCPUAffinity sys Pid cpus = .returned err) ↔ cpus.Bits.length ≤ 32) ∧
    (33 ≤ cpus.Bits.length → SetCPUAffinity sys Pid cpus = .indexOutOfRange 16 16) := by
  have hout : 33 ≤ cpus.Bits.length → SetCPUAffinity sys Pid cpus = .indexOutOfRange 16 16 := by
    intro h
    have hp := pack_out_of_range cpus.Bits (List.replicate 16 0) 0 (by simp) (by omega)
      (by omega)
    simp only [SetCPUAffinity, hpid, hp]
  refine ⟨⟨?_, ?_⟩, hout⟩
  · rintro ⟨err, herr⟩
    by_contra hlen
    rw [hout (by omega)] at herr
    cases herr
  · intro hlen
    obtain ⟨m, hm, _⟩ := pack_in_range cpus.Bits (List.replicate 16 0) 0 (by simp) (by omega)
    by_cases hz : sys.sched_setaffinity (uintptrOfInt pid) m = 0
    · exact ⟨none, by simp only [SetCPUAffinity, hpid, hm]; simp [hz]⟩
    · exact ⟨some (GoError.errno (sys.sched_setaffinity (uintptrOfInt pid) m)),
        by simp only [SetCPUAffinity, hpid, hm]; simp [hz]⟩

/-- C10, at a bitmap of 32 words (returns) and at one of 33 words (index 16 of
a 16-word mask). -/
theorem SetCPUAffinity_index_range_witness :
    (∃ err, SetCPUAffinity ⟨fun _ => ([], 0), fun _ _ => 0⟩ "4242"
        ⟨1024, List.replicate 32 1⟩ = .returned err) ∧
    SetCPUAffinity ⟨fun _ => ([], 0), fun _ _ => 0⟩ "4242" ⟨1056, List.replicate 33 1⟩ =
      .indexOutOfRange 16 16 :=
  ⟨(SetCPUAffinity_index_range ⟨fun _ => ([], 0), fun _ _ => 0⟩ "4242" 4242
      ⟨1024, List.replicate 32 1⟩ (by decide)).1.2 (by decide),
   (SetCPUAffinity_index_range ⟨fun _ => ([], 0), fun _ _ => 0⟩ "4242" 4242
      ⟨1056, List.replicate 33 1⟩ (by decide)).2 (by decide)⟩

/-- C1, at the bitmap with only CPU 32 set (word 1 equal to 1): the packing
loop of `SetCPUAffinity` puts word 1 into the low half of mask word 0, and the
conversion of `GetCPUAffinity` reads the result back as CPU 0, a different
bitmap. -/
theorem pack_convert_not_identity :
    SetCPUAffinity.pack (List.replicate 16 0) 0 (0 :: 1 :: List.replicate 30 0) =
      .returned (1 :: List.replicate 15 0) ∧
    GetCPUAffinity.convert (1 :: List.replicate 15 0) = 1 :: 0 :: List.replicate 30 0 ∧
    GetCPUAffinity.convert (1 :: List.replicate 15 0) ≠ 0 :: 1 :: List.replicate 30 0 := by
  decide

end Rmd.proc
